import Mathlib

/-
  Verification development for the Adafruit_LittleFS filesystem wrapper
  (libraries/Adafruit_LittleFS/src/Adafruit_LittleFS.cpp).

  The wrapper sits between application code and the littlefs library.
  We embed: the flash block adapter (lba2addr, _internal_flash_erase),
  the mount lifecycle (begin / end / format), the mkdir path walker,
  and the remove family (remove / rmdir / rmdir_r).

  External collaborators (lfs_mount, lfs_unmount, lfs_format, lfs_mkdir,
  lfs_remove, the raw flash driver) are modelled by explicit result
  parameters or, where a claim depends on their behaviour, by
  definitions marked "Modelled from the spec".
-/

/-! ## Constants (from Adafruit_LittleFS.cpp and the littlefs error enum) -/

/-- Block size: `#define LFS_BLOCK_SIZE 128` from Adafruit_LittleFS.cpp. -/
def LFS_BLOCK_SIZE : Nat := 128

/-- littlefs success code (`LFS_ERR_OK = 0`).  The littlefs header is not
part of the extracted source; the code values mirror the standard littlefs
v1 enum whose names appear in `dbg_strerr_lfs` in Adafruit_LittleFS.cpp. -/
def LFS_ERR_OK : Int := 0

/-- littlefs "no such entry" code (`LFS_ERR_NOENT = -2`). -/
def LFS_ERR_NOENT : Int := -2

/-- littlefs "entry already exists" code (`LFS_ERR_EXIST = -17`). -/
def LFS_ERR_EXIST : Int := -17

/-- littlefs "directory not empty" code (`LFS_ERR_NOTEMPTY = -39`). -/
def LFS_ERR_NOTEMPTY : Int := -39

/-- Modelled from the spec: the `VERIFY_LFS` macro (header not in the
extracted source) treats a littlefs return code as a failure exactly when
it is negative (`(_exp) >= LFS_ERR_OK` is the success test), printing the
error and returning from the enclosing function on failure. -/
def lfsFailed (rc : Int) : Bool := rc < 0

/-! ## Mount lifecycle state machine

`Adafruit_LittleFS` holds a stored configuration pointer `_lfs_cfg`
(NULL = `none`) and a mount flag `_mounted`.  The configuration structure
carries the geometry fields initialised in `_InternalFSConfig`. -/

/-- The geometry fields of `struct lfs_config` as initialised in
`_InternalFSConfig` (callbacks and buffer pointers omitted: no claim
inspects them). -/
structure LfsConfig where
  read_size : Nat
  prog_size : Nat
  block_size : Nat
  block_count : Nat
  lookahead : Nat
deriving DecidableEq, Repr

/-- The mutable state of an `Adafruit_LittleFS` object: `_lfs_cfg`
(NULL modelled as `none`) and `_mounted`. -/
structure LFSState where
  lfs_cfg : Option LfsConfig
  mounted : Bool
deriving DecidableEq, Repr

/-- External calls the lifecycle operations can make. -/
inductive ExtCall where
  | lfs_mount
  | lfs_unmount
  | lfs_format
deriving DecidableEq, Repr

/-- Results the external littlefs routines would return if invoked
(the environment of one lifecycle operation). -/
structure Env where
  mountRc : Int
  unmountRc : Int
  formatRc : Int
deriving DecidableEq, Repr

/-- Result of `begin`: the C return value, the state after the call, and
the external calls made (in order). -/
structure BeginResult where
  ret : Bool
  st : LFSState
  calls : List ExtCall
deriving DecidableEq, Repr

/-- Result of `end`: the state after the call and, for each external call
made, the value of `_mounted` at the moment the call was issued. -/
structure EndResult where
  st : LFSState
  calls : List (ExtCall × Bool)
deriving DecidableEq, Repr

/-- Result of `format`: the C return value, the state after the call, and
the external calls made (in order). -/
structure FormatResult where
  ret : Bool
  st : LFSState
  calls : List ExtCall
deriving DecidableEq, Repr

namespace Adafruit_LittleFS

/-- Embedding of `Adafruit_LittleFS::begin(struct lfs_config * cfg)`:
```
if ( _mounted ) return true;
if (cfg) _lfs_cfg = cfg;
if (!_lfs_cfg) return false;
VERIFY_LFS(lfs_mount(&_lfs, _lfs_cfg), false);
_mounted = true;
return true;
``` -/
def begin (st : LFSState) (cfg : Option LfsConfig) (env : Env) : BeginResult :=
  if st.mounted then ⟨true, st, []⟩
  else
    let st1 : LFSState :=
      match cfg with
      | some c => { st with lfs_cfg := some c }
      | none => st
    match st1.lfs_cfg with
    | none => ⟨false, st1, []⟩
    | some _ =>
        if lfsFailed env.mountRc then ⟨false, st1, [.lfs_mount]⟩
        else ⟨true, { st1 with mounted := true }, [.lfs_mount]⟩

/-- Embedding of `Adafruit_LittleFS::end(void)`:
```
if (!_mounted) return;
_mounted = false;
VERIFY_LFS(lfs_unmount(&_lfs), );
```
The `_mounted` flag is cleared before `lfs_unmount` runs; the trace
records the flag's value at the moment of the call.  `VERIFY_LFS(.., )`
turns an unmount failure into a bare `return;`, so the result is the
same whether `lfs_unmount` succeeds or fails. -/
def fsEnd (st : LFSState) (env : Env) : EndResult :=
  if !st.mounted then ⟨st, []⟩
  else
    let st1 : LFSState := { st with mounted := false }
    if lfsFailed env.unmountRc then ⟨st1, [(.lfs_unmount, st1.mounted)]⟩
    else ⟨st1, [(.lfs_unmount, st1.mounted)]⟩

/-- Embedding of `Adafruit_LittleFS::format(void)`:
```
if(_mounted) VERIFY_LFS(lfs_unmount(&_lfs), false);
VERIFY_LFS(lfs_format(&_lfs, _lfs_cfg), false);
if (_mounted) VERIFY_LFS(lfs_mount(&_lfs, _lfs_cfg), false);
return true;
```
`_mounted` is never assigned in this function, so both of its reads see
the value held at entry. -/
def format (st : LFSState) (env : Env) : FormatResult :=
  if st.mounted then
    if lfsFailed env.unmountRc then ⟨false, st, [.lfs_unmount]⟩
    else if lfsFailed env.formatRc then ⟨false, st, [.lfs_unmount, .lfs_format]⟩
    else if lfsFailed env.mountRc then
      ⟨false, st, [.lfs_unmount, .lfs_format, .lfs_mount]⟩
    else ⟨true, st, [.lfs_unmount, .lfs_format, .lfs_mount]⟩
  else
    if lfsFailed env.formatRc then ⟨false, st, [.lfs_format]⟩
    else ⟨true, st, [.lfs_format]⟩

end Adafruit_LittleFS

/-! ## mkdir — the directory path walker

Paths are C strings modelled as `List Char` (no embedded NUL).  `mkdir`
scans for `/` separators and issues one `lfs_mkdir` per intermediate
prefix, then one for the whole path.  The environment maps each attempted
path to the `lfs_mkdir` return code. -/

/-- The scan loop of `Adafruit_LittleFS::mkdir`: `acc` is the part of
`filepath` strictly before the cursor `slash`, `rest` the part from the
cursor on.  Each separator found emits the prefix strictly before it
(`strchr` + `memcpy(parent, filepath, slash - filepath)`), then the
cursor advances past the separator (`slash++`). -/
def interParents (acc rest : List Char) : List (List Char) :=
  match rest with
  | [] => []
  | c :: rest' =>
      if c = '/' then acc :: interParents (acc ++ [c]) rest'
      else interParents (acc ++ [c]) rest'

/-- The full sequence of paths `mkdir(filepath)` would hand to
`lfs_mkdir`, in order: the scan starts after a single leading `/` if
present (`if ( slash[0] == '/' ) slash++;`), and after the loop the
entire original path is attempted. -/
def mkdirAttemptList (path : List Char) : List (List Char) :=
  match path with
  | c :: rest =>
      if c = '/' then interParents ['/'] rest ++ [path]
      else interParents [] path ++ [path]
  | [] => interParents [] path ++ [path]

/-- Is an `lfs_mkdir` return code absorbed by `mkdir`?
`rc != LFS_ERR_OK && rc != LFS_ERR_EXIST` is the abort test in the
source; this is its negation. -/
def mkdirBenign (rc : Int) : Bool := rc = LFS_ERR_OK || rc = LFS_ERR_EXIST

/-- Result of `mkdir`: the C return value, the paths actually handed to
`lfs_mkdir` (in order), and — on abort — the path and return code that
the failure is reported with (`PRINT_LFS_ERR(rc)` at that point of the
walk; pairing the code with the current path is modelled from the spec,
the macro itself is not in the extracted source). -/
structure MkdirResult where
  ret : Bool
  attempts : List (List Char)
  report : Option (List Char × Int)
deriving DecidableEq, Repr

/-- Run the creation attempts in order: a benign code continues, any
other code aborts immediately with `return false`. -/
def runMkdirAttempts (rc : List Char → Int) : List (List Char) → MkdirResult
  | [] => ⟨true, [], none⟩
  | p :: ps =>
      if mkdirBenign (rc p) then
        let r := runMkdirAttempts rc ps
        ⟨r.ret, p :: r.attempts, r.report⟩
      else ⟨false, [p], some (p, rc p)⟩

namespace Adafruit_LittleFS

/-- Embedding of `Adafruit_LittleFS::mkdir(char const *filepath)`: walk the
separators issuing `lfs_mkdir` for each intermediate parent, aborting on
any non-benign code, then issue `lfs_mkdir` for the full path with the
same benign/abort classification. -/
def mkdir (rc : List Char → Int) (path : List Char) : MkdirResult :=
  runMkdirAttempts rc (mkdirAttemptList path)

end Adafruit_LittleFS

/-! ## The remove family and the underlying remove primitive

`remove`, `rmdir` and `rmdir_r` each consist of a single
`VERIFY_LFS(lfs_remove(&_lfs, filepath), …)` followed by `return true`.
The primitive `lfs_remove` lives in the (vendored, modified) littlefs
library, outside the extracted source, so its behaviour is modelled from
the spec. -/

/-- Prefix test: `p` is a prefix of `q` (character by character). -/
def leadsWith : List Char → List Char → Bool
  | [], _ => true
  | _ :: _, [] => false
  | a :: as, b :: bs => a = b && leadsWith as bs

/-- A filesystem as the set of existing entry paths. -/
abbrev FSEntries := List (List Char)

/-- Containment test: `q` lies strictly inside the directory `p` (i.e. `p ++ "/"` is a
prefix of `q`). -/
def insideDir (p q : List Char) : Bool := leadsWith (p ++ ['/']) q

/-- Modelled from the spec: the modified littlefs `lfs_remove` (vendored
library, not in the extracted source).  "That primitive is required to
remove non-empty directories recursively … it must not fail with
\"not empty\" on a populated directory."  Removing an existing path
deletes the entry and everything inside it and reports `LFS_ERR_OK`; a
missing path reports `LFS_ERR_NOENT`; no input produces
`LFS_ERR_NOTEMPTY`. -/
def lfs_remove (fs : FSEntries) (path : List Char) : Int × FSEntries :=
  if path ∈ fs then
    (LFS_ERR_OK, List.filter (fun q => !(decide (q = path) || insideDir path q)) fs)
  else (LFS_ERR_NOENT, fs)

namespace Adafruit_LittleFS

/-- Embedding of `Adafruit_LittleFS::remove`: `VERIFY_LFS(lfs_remove(&_lfs, filepath), false);
return true;` — parametrised by the remove primitive `prim`; returns the
C return value, the filesystem after the call, and the paths handed to
the primitive. -/
def remove (prim : FSEntries → List Char → Int × FSEntries) (fs : FSEntries)
    (path : List Char) : Bool × FSEntries × List (List Char) :=
  let r := prim fs path
  if lfsFailed r.1 then (false, r.2, [path]) else (true, r.2, [path])

/-- Embedding of `Adafruit_LittleFS::rmdir`: `VERIFY_LFS(lfs_remove(&_lfs, filepath));
return true;` (the one-argument `VERIFY` also returns `false` on
failure). -/
def rmdir (prim : FSEntries → List Char → Int × FSEntries) (fs : FSEntries)
    (path : List Char) : Bool × FSEntries × List (List Char) :=
  let r := prim fs path
  if lfsFailed r.1 then (false, r.2, [path]) else (true, r.2, [path])

/-- Embedding of `Adafruit_LittleFS::rmdir_r`: identical body to `rmdir` (the vendored
littlefs is modified so that plain `lfs_remove` already recurses). -/
def rmdir_r (prim : FSEntries → List Char → Int × FSEntries) (fs : FSEntries)
    (path : List Char) : Bool × FSEntries × List (List Char) :=
  let r := prim fs path
  if lfsFailed r.1 then (false, r.2, [path]) else (true, r.2, [path])

end Adafruit_LittleFS

/-! ## Flash block adapter

Flash memory is a map from 32-bit addresses to bytes.  The raw driver
primitives (`flash_nrf5x_write8`, `flash_nrf5x_read`) are external
collaborators modelled from the spec's driver contract; `lba2addr` and
`_internal_flash_erase` are embedded from the source.  `uint32_t`
arithmetic reduces modulo `2^32`. -/

/-- One `uint32_t` modulus. -/
def U32 : Nat := 2 ^ 32

/-- Flash contents: byte at each 32-bit address. -/
abbrev Flash := Nat → Nat

/-- Modelled from the spec: raw driver `write_byte(absolute_address,
value)` — store one byte at the given 32-bit address. -/
def flash_nrf5x_write8 (f : Flash) (addr v : Nat) : Flash :=
  fun a => if a = addr % U32 then v % 256 else f a

/-- Modelled from the spec: raw driver `read(dest, absolute_address,
length)` — the `length` bytes starting at the given 32-bit address. -/
def flash_nrf5x_read (f : Flash) (addr len : Nat) : List Nat :=
  (List.range len).map (fun i => f ((addr + i) % U32))

/-- Address translation `lba2addr(block) = LFS_FLASH_ADDR + block * LFS_BLOCK_SIZE`
(`uint32_t` arithmetic); the flash base address `LFS_FLASH_ADDR` comes
from a board header outside the extracted source, so it is a
parameter. -/
def lba2addr (base block : Nat) : Nat := (base + block * LFS_BLOCK_SIZE) % U32

/-- Write `0xFF` to each address of the list in order, returning the new
flash contents and the `(address, value)` trace of `write8` calls. -/
def writeFillFF (f : Flash) : List Nat → Flash × List (Nat × Nat)
  | [] => (f, [])
  | a :: rest =>
      let r := writeFillFF (flash_nrf5x_write8 f a 0xFF) rest
      (r.1, (a % U32, 0xFF) :: r.2)

/-- Embedding of `_internal_flash_erase`: compute the block's base address and write
`0xFF` to every byte offset `0 .. LFS_BLOCK_SIZE-1`
(`for(int i=0; i<LFS_BLOCK_SIZE; i++) flash_nrf5x_write8(addr+i, 0xFF);`),
then `return 0`.  Result: new flash contents, the `write8` call trace,
and the C return value. -/
def _internal_flash_erase (base : Nat) (f : Flash) (block : Nat) :
    Flash × List (Nat × Nat) × Int :=
  let addr := lba2addr base block
  let w := writeFillFF f ((List.range LFS_BLOCK_SIZE).map (fun i => addr + i))
  (w.1, w.2, 0)

/-! ## Sample values used by witnesses -/

/-- Sample geometry A (128-byte blocks, 56 blocks). -/
def cfgA : LfsConfig := ⟨128, 128, 128, 56, 128⟩

/-- Sample geometry B, distinct from `cfgA`. -/
def cfgB : LfsConfig := ⟨128, 128, 128, 112, 128⟩

/-- Environment in which every external littlefs routine succeeds. -/
def envOK : Env := ⟨0, 0, 0⟩

/-! ## Lifecycle lemmas -/

/-- A successful `begin` leaves the object mounted. -/
lemma begin_ret_true_mounted (st : LFSState) (cfg : Option LfsConfig) (env : Env)
    (h : (Adafruit_LittleFS.begin st cfg env).ret = true) :
    (Adafruit_LittleFS.begin st cfg env).st.mounted = true := by
  rcases st with ⟨c0, m⟩
  cases m <;> cases cfg <;> rcases c0 with _ | c0 <;>
    by_cases hf : lfsFailed env.mountRc <;>
    simp_all [Adafruit_LittleFS.begin]

/-- One `begin` call invokes `lfs_mount` at most once. -/
lemma begin_calls_cases (st : LFSState) (cfg : Option LfsConfig) (env : Env) :
    (Adafruit_LittleFS.begin st cfg env).calls = [] ∨
    (Adafruit_LittleFS.begin st cfg env).calls = [ExtCall.lfs_mount] := by
  rcases st with ⟨c0, m⟩
  cases m <;> cases cfg <;> rcases c0 with _ | c0 <;>
    by_cases hf : lfsFailed env.mountRc <;>
    simp [Adafruit_LittleFS.begin, hf]

/-- On a mounted instance `begin` is the identity with result `true`. -/
lemma begin_mounted_eq (st : LFSState) (cfg : Option LfsConfig) (env : Env)
    (h : st.mounted = true) :
    Adafruit_LittleFS.begin st cfg env = ⟨true, st, []⟩ := by
  simp [Adafruit_LittleFS.begin, h]

/-- C5: on an already-mounted instance `begin` returns `true` with no
external mount call and an unchanged state; hence a second `begin` after
a successful one also succeeds, makes no external call, and across the
two calls `lfs_mount` runs at most once. -/
theorem begin_mounted_idempotent :
    (∀ (st : LFSState) (cfg : Option LfsConfig) (env : Env), st.mounted = true →
      Adafruit_LittleFS.begin st cfg env = ⟨true, st, []⟩) ∧
    (∀ (st : LFSState) (cfg1 : Option LfsConfig) (env1 : Env)
        (cfg2 : Option LfsConfig) (env2 : Env),
      (Adafruit_LittleFS.begin st cfg1 env1).ret = true →
      Adafruit_LittleFS.begin (Adafruit_LittleFS.begin st cfg1 env1).st cfg2 env2 =
        ⟨true, (Adafruit_LittleFS.begin st cfg1 env1).st, []⟩ ∧
      ((Adafruit_LittleFS.begin st cfg1 env1).calls ++
        (Adafruit_LittleFS.begin (Adafruit_LittleFS.begin st cfg1 env1).st cfg2
          env2).calls).count ExtCall.lfs_mount ≤ 1) := by
  constructor
  · exact begin_mounted_eq
  · intro st cfg1 env1 cfg2 env2 h
    have hm := begin_ret_true_mounted st cfg1 env1 h
    have h2 := begin_mounted_eq (Adafruit_LittleFS.begin st cfg1 env1).st cfg2 env2 hm
    refine ⟨h2, ?_⟩
    rw [h2]
    rcases begin_calls_cases st cfg1 env1 with hc | hc <;>
      simp [hc, List.count_append, List.count_cons]

/-- Closed witness for `begin_mounted_idempotent`. -/
theorem begin_mounted_idempotent_witness :
    Adafruit_LittleFS.begin ⟨some cfgA, true⟩ none envOK =
      ⟨true, ⟨some cfgA, true⟩, []⟩ ∧
    Adafruit_LittleFS.begin (Adafruit_LittleFS.begin ⟨some cfgA, false⟩ none envOK).st
        none envOK =
      ⟨true, (Adafruit_LittleFS.begin ⟨some cfgA, false⟩ none envOK).st, []⟩ :=
  ⟨begin_mounted_idempotent.1 ⟨some cfgA, true⟩ none envOK rfl,
   (begin_mounted_idempotent.2 ⟨some cfgA, false⟩ none envOK none envOK (by decide)).1⟩

/-- C6: an unmounted instance with no stored configuration and no
supplied configuration fails `begin` (the ConfigMissing outcome) with no
external mount call and an unchanged state. -/
theorem begin_config_missing (st : LFSState) (env : Env)
    (hm : st.mounted = false) (hc : st.lfs_cfg = none) :
    Adafruit_LittleFS.begin st none env = ⟨false, st, []⟩ := by
  simp [Adafruit_LittleFS.begin, hm, hc]

/-- Closed witness for `begin_config_missing`. -/
theorem begin_config_missing_witness :
    Adafruit_LittleFS.begin ⟨none, false⟩ none envOK = ⟨false, ⟨none, false⟩, []⟩ :=
  begin_config_missing ⟨none, false⟩ envOK rfl rfl

/-- C7: `end` is a no-op on an unmounted instance; on a mounted instance
the flag is cleared before `lfs_unmount` is invoked (the trace records
`_mounted = false` at the call); the instance is unmounted afterwards
and the result does not depend on whether `lfs_unmount` succeeds. -/
theorem end_always_unmounts :
    (∀ (st : LFSState) (env : Env), st.mounted = false →
      Adafruit_LittleFS.fsEnd st env = ⟨st, []⟩) ∧
    (∀ (st : LFSState) (env : Env), st.mounted = true →
      Adafruit_LittleFS.fsEnd st env =
        ⟨{ st with mounted := false }, [(ExtCall.lfs_unmount, false)]⟩) ∧
    (∀ (st : LFSState) (env env' : Env),
      (Adafruit_LittleFS.fsEnd st env).st.mounted = false ∧
      Adafruit_LittleFS.fsEnd st env = Adafruit_LittleFS.fsEnd st env') := by
  refine ⟨?_, ?_, ?_⟩
  · intro st env h
    simp [Adafruit_LittleFS.fsEnd, h]
  · intro st env h
    simp [Adafruit_LittleFS.fsEnd, h]
  · intro st env env'
    constructor
    · cases hm : st.mounted <;>
        by_cases hu : lfsFailed env.unmountRc <;>
        simp [Adafruit_LittleFS.fsEnd, hm, hu]
    · cases hm : st.mounted <;>
        by_cases hu : lfsFailed env.unmountRc <;>
        by_cases hu' : lfsFailed env'.unmountRc <;>
        simp [Adafruit_LittleFS.fsEnd, hm, hu, hu']

/-- Closed witness for `end_always_unmounts`. -/
theorem end_always_unmounts_witness :
    Adafruit_LittleFS.fsEnd ⟨some cfgA, false⟩ envOK = ⟨⟨some cfgA, false⟩, []⟩ ∧
    Adafruit_LittleFS.fsEnd ⟨some cfgA, true⟩ envOK =
      ⟨⟨some cfgA, false⟩, [(ExtCall.lfs_unmount, false)]⟩ :=
  ⟨end_always_unmounts.1 ⟨some cfgA, false⟩ envOK rfl,
   end_always_unmounts.2.1 ⟨some cfgA, true⟩ envOK rfl⟩

/-- C1: `format` unmounts first when mounted, then formats, then — when
it was mounted at entry — remounts; on success the mount state equals
the entry state; `format` returns `false` exactly when one of the steps
it executes fails. -/
theorem format_restores_mount :
    ∀ (st : LFSState) (env : Env),
      ((Adafruit_LittleFS.format st env).ret = true →
        (Adafruit_LittleFS.format st env).st.mounted = st.mounted ∧
        (Adafruit_LittleFS.format st env).calls =
          (if st.mounted then [ExtCall.lfs_unmount, ExtCall.lfs_format, ExtCall.lfs_mount]
           else [ExtCall.lfs_format])) ∧
      ((Adafruit_LittleFS.format st env).ret = false ↔
        ((st.mounted = true ∧ (lfsFailed env.unmountRc = true ∨
            lfsFailed env.formatRc = true ∨ lfsFailed env.mountRc = true)) ∨
         (st.mounted = false ∧ lfsFailed env.formatRc = true))) := by
  intro st env
  rcases st with ⟨c0, m⟩
  cases m <;> cases hu : lfsFailed env.unmountRc <;>
    cases hf : lfsFailed env.formatRc <;>
    cases hm : lfsFailed env.mountRc <;>
    simp [Adafruit_LittleFS.format, hu, hf, hm]

/-- Closed witness for `format_restores_mount`. -/
theorem format_restores_mount_witness :
    (Adafruit_LittleFS.format ⟨some cfgA, true⟩ envOK).st.mounted =
      (⟨some cfgA, true⟩ : LFSState).mounted ∧
    (Adafruit_LittleFS.format ⟨some cfgA, true⟩ envOK).calls =
      (if (⟨some cfgA, true⟩ : LFSState).mounted then
        [ExtCall.lfs_unmount, ExtCall.lfs_format, ExtCall.lfs_mount]
       else [ExtCall.lfs_format]) :=
  (format_restores_mount ⟨some cfgA, true⟩ envOK).1 (by decide)

/-- C10: `format` never modifies the object state (in particular the
`_mounted` flag) on any path, and the trailing remount is issued exactly
when the entry state was mounted and the unmount and format steps both
succeeded — i.e. the remount decision consults the entry value of the
flag. -/
theorem format_frame (st : LFSState) (env : Env) :
    (Adafruit_LittleFS.format st env).st = st ∧
    (ExtCall.lfs_mount ∈ (Adafruit_LittleFS.format st env).calls ↔
      (st.mounted = true ∧ lfsFailed env.unmountRc = false ∧
        lfsFailed env.formatRc = false)) := by
  rcases st with ⟨c0, m⟩
  cases m <;> cases hu : lfsFailed env.unmountRc <;>
    cases hf : lfsFailed env.formatRc <;>
    cases hm : lfsFailed env.mountRc <;>
    simp [Adafruit_LittleFS.format, hu, hf, hm]

/-- Counterexample to C2 as stated: with the instance already mounted
(stored configuration `cfgA`), `begin (some cfgB)` leaves the stored
configuration at `cfgA`, not `cfgB` — the early `if (_mounted) return
true;` precedes `if (cfg) _lfs_cfg = cfg;`. -/
theorem begin_cfg_overwrite_cex :
    (Adafruit_LittleFS.begin ⟨some cfgA, true⟩ (some cfgB) envOK).st.lfs_cfg =
      some cfgA ∧ cfgA ≠ cfgB := by
  decide

/-- C2 (amended): a supplied configuration overwrites the stored one
whenever the instance is not mounted at the time of the call; when it is
already mounted, `begin` returns immediately and the stored
configuration is unchanged. -/
theorem begin_cfg_overwrite_amended :
    ∀ (st : LFSState) (c : LfsConfig) (env : Env),
      (st.mounted = false →
        (Adafruit_LittleFS.begin st (some c) env).st.lfs_cfg = some c) ∧
      (st.mounted = true →
        Adafruit_LittleFS.begin st (some c) env = ⟨true, st, []⟩) := by
  intro st c env
  constructor
  · intro h
    by_cases hf : lfsFailed env.mountRc <;>
      simp [Adafruit_LittleFS.begin, h, hf]
  · intro h
    exact begin_mounted_eq st (some c) env h

/-- Closed witness for `begin_cfg_overwrite_amended`. -/
theorem begin_cfg_overwrite_amended_witness :
    (Adafruit_LittleFS.begin ⟨none, false⟩ (some cfgB) envOK).st.lfs_cfg =
      some cfgB ∧
    Adafruit_LittleFS.begin ⟨some cfgA, true⟩ (some cfgB) envOK =
      ⟨true, ⟨some cfgA, true⟩, []⟩ :=
  ⟨(begin_cfg_overwrite_amended ⟨none, false⟩ cfgB envOK).1 rfl,
   (begin_cfg_overwrite_amended ⟨some cfgA, true⟩ cfgB envOK).2 rfl⟩

/-! ## PathOps: declarative characterization of the mkdir walk -/

/-- Indices of the `/` characters of a list, in increasing order
(recursive form, used to relate the scan loop to the declarative
description). -/
def slashPosAux : List Char → List Nat
  | [] => []
  | c :: r =>
      if c = '/' then 0 :: (slashPosAux r).map Nat.succ
      else (slashPosAux r).map Nat.succ

/-- Index at which the mkdir scan starts: one past a single leading
separator if present. -/
def mkdirStart (path : List Char) : Nat :=
  if path.head? = some '/' then 1 else 0

/-- The creation attempts the claim describes: for each separator at or
after the start index, the prefix strictly before it, in left-to-right
order; then the entire original path. -/
def plannedAttempts (path : List Char) : List (List Char) :=
  (((List.range path.length).filter
      (fun i => decide (mkdirStart path ≤ i) && decide (path.get? i = some '/'))).map
    (fun i => path.take i)) ++ [path]

/-- The scan loop emits `acc ++ rest.take i` for each slash index `i` of
`rest`, in order. -/
lemma interParents_eq (rest : List Char) : ∀ acc : List Char,
    interParents acc rest = (slashPosAux rest).map (fun i => acc ++ rest.take i) := by
  induction rest with
  | nil => intro acc; rfl
  | cons c r ih =>
      intro acc
      by_cases hc : c = '/'
      · simp only [interParents, slashPosAux, hc, if_pos rfl]
        rw [ih (acc ++ ['/'])]
        simp [List.map_map, Function.comp, List.take_succ_cons]
      · simp only [interParents, slashPosAux, if_neg hc]
        rw [ih (acc ++ [c])]
        simp [List.map_map, Function.comp, List.take_succ_cons]

/-- The recursive slash-index list agrees with the filtered index
range. -/
lemma slashPosAux_eq (rest : List Char) :
    slashPosAux rest =
      (List.range rest.length).filter (fun i => decide (rest.get? i = some '/')) := by
  induction rest with
  | nil => rfl
  | cons c r ih =>
      simp only [slashPosAux, List.length_cons, List.range_succ_eq_map,
        List.filter_cons]
      rw [List.filter_map]
      have h2 : List.filter ((fun i => decide ((c :: r).get? i = some '/')) ∘ Nat.succ)
          (List.range r.length) =
          List.filter (fun i => decide (r.get? i = some '/')) (List.range r.length) := by
        apply List.filter_congr
        intro a _
        simp [Function.comp]
      rw [h2, ← ih]
      by_cases hc : c = '/' <;> simp [hc]

/-- Dropping index 0 from the filtered range of a cons shifts to the
tail's filtered range. -/
lemma planned_shift (c : Char) (rest : List Char) :
    (List.range (c :: rest).length).filter
      (fun i => decide (1 ≤ i) && decide ((c :: rest).get? i = some '/')) =
    ((List.range rest.length).filter
      (fun i => decide (rest.get? i = some '/'))).map Nat.succ := by
  rw [List.length_cons, List.range_succ_eq_map, List.filter_cons, List.filter_map]
  have h2 : List.filter
      ((fun i => decide (1 ≤ i) && decide ((c :: rest).get? i = some '/')) ∘ Nat.succ)
      (List.range rest.length) =
      List.filter (fun i => decide (rest.get? i = some '/')) (List.range rest.length) := by
    apply List.filter_congr
    intro a _
    simp [Function.comp]
  rw [h2]
  simp

/-- A start index of 0 places no constraint on the filtered range. -/
lemma planned_nostart (path : List Char) :
    (List.range path.length).filter
      (fun i => decide (0 ≤ i) && decide (path.get? i = some '/')) =
    (List.range path.length).filter (fun i => decide (path.get? i = some '/')) := by
  apply List.filter_congr
  intro a _
  simp

/-- The scan-based attempt list equals the declarative one. -/
lemma mkdirAttemptList_eq_planned (path : List Char) :
    mkdirAttemptList path = plannedAttempts path := by
  cases path with
  | nil => rfl
  | cons c rest =>
      by_cases hc : c = '/'
      · subst hc
        have hstart : mkdirStart ('/' :: rest) = 1 := by simp [mkdirStart]
        simp only [mkdirAttemptList, if_pos rfl, plannedAttempts, hstart]
        rw [interParents_eq, slashPosAux_eq, planned_shift]
        simp [List.map_map, Function.comp, List.take_succ_cons]
      · have hstart : mkdirStart (c :: rest) = 0 := by simp [mkdirStart, hc]
        simp only [mkdirAttemptList, if_neg hc, plannedAttempts, hstart]
        rw [interParents_eq, slashPosAux_eq, planned_nostart]
        simp

/-- Running attempts that all carry a benign code succeeds, issues them
all, and reports nothing. -/
lemma runMkdirAttempts_all_benign (rc : List Char → Int) (L : List (List Char))
    (h : ∀ q ∈ L, mkdirBenign (rc q) = true) :
    runMkdirAttempts rc L = ⟨true, L, none⟩ := by
  induction L with
  | nil => rfl
  | cons p ps ih =>
      have hp : mkdirBenign (rc p) = true := h p (List.mem_cons_self p ps)
      have hr := ih (fun q hq => h q (List.mem_cons_of_mem p hq))
      simp [runMkdirAttempts, hp, hr]

/-- Running attempts whose first non-benign code sits at index `k`
aborts there: `false`, exactly the first `k+1` attempts issued, failure
reported with that attempt's path and code. -/
lemma runMkdirAttempts_first_bad (rc : List Char → Int) :
    ∀ (L : List (List Char)) (k : Nat) (q : List Char),
      L.get? k = some q →
      (∀ (j : Nat) (p : List Char), j < k → L.get? j = some p →
        mkdirBenign (rc p) = true) →
      mkdirBenign (rc q) = false →
      runMkdirAttempts rc L = ⟨false, L.take (k + 1), some (q, rc q)⟩ := by
  intro L
  induction L with
  | nil => intro k q hk; simp at hk
  | cons p ps ih =>
      intro k q hk hbefore hq
      cases k with
      | zero =>
          have hpq : p = q := by simpa using hk
          subst hpq
          simp [runMkdirAttempts, hq]
      | succ k' =>
          have hp : mkdirBenign (rc p) = true :=
            hbefore 0 p (Nat.succ_pos k') rfl
          have hr := ih k' q (by simpa using hk)
            (fun j r hj hjr => hbefore (j + 1) r (Nat.succ_lt_succ hj) (by simpa using hjr))
            hq
          simp [runMkdirAttempts, hp, hr]

/-- C3: `mkdir` skips a single leading separator, then issues one
creation attempt per separator found — the prefix strictly before that
separator, in left-to-right order — followed by one attempt for the
entire original path; `/a/b/c` yields exactly `/a`, `/a/b`, `/a/b/c`,
and a path with no separators after the start yields only the leaf
attempt. -/
theorem mkdir_path_decomposition :
    ∀ path : List Char,
      mkdirAttemptList path = plannedAttempts path ∧
      (∀ rc : List Char → Int, (∀ q, mkdirBenign (rc q) = true) →
        (Adafruit_LittleFS.mkdir rc path).attempts = plannedAttempts path) ∧
      mkdirAttemptList "/a/b/c".toList =
        ["/a".toList, "/a/b".toList, "/a/b/c".toList] ∧
      ((List.range path.length).filter
          (fun i => decide (mkdirStart path ≤ i) &&
            decide (path.get? i = some '/')) = [] →
        mkdirAttemptList path = [path]) := by
  intro path
  refine ⟨mkdirAttemptList_eq_planned path, ?_, by decide, ?_⟩
  · intro rc h
    unfold Adafruit_LittleFS.mkdir
    rw [runMkdirAttempts_all_benign rc _ (fun q _ => h q), mkdirAttemptList_eq_planned]
  · intro h
    rw [mkdirAttemptList_eq_planned, plannedAttempts, h]
    rfl

/-- Closed witness for `mkdir_path_decomposition`. -/
theorem mkdir_path_decomposition_witness :
    (Adafruit_LittleFS.mkdir (fun _ => LFS_ERR_OK) "/a/b/c".toList).attempts =
      plannedAttempts "/a/b/c".toList ∧
    mkdirAttemptList "/abc".toList = ["/abc".toList] :=
  ⟨(mkdir_path_decomposition "/a/b/c".toList).2.1 (fun _ => LFS_ERR_OK)
      (fun _ => rfl),
   (mkdir_path_decomposition "/abc".toList).2.2.2 (by decide)⟩

/-- C4: "already exists" for any intermediate or for the leaf is
absorbed as success (the walk continues and `mkdir` returns `true` when
every code is OK or EXIST), while the first attempt returning any other
code aborts immediately: no further attempts are issued, `mkdir`
returns `false`, and the failure is reported with the path (and code)
at which it occurred. -/
theorem mkdir_error_handling :
    ∀ (path : List Char) (rc : List Char → Int),
      mkdirBenign LFS_ERR_OK = true ∧ mkdirBenign LFS_ERR_EXIST = true ∧
      ((∀ q ∈ mkdirAttemptList path, mkdirBenign (rc q) = true) →
        Adafruit_LittleFS.mkdir rc path = ⟨true, mkdirAttemptList path, none⟩) ∧
      (∀ (k : Nat) (q : List Char),
        (mkdirAttemptList path).get? k = some q →
        (∀ (j : Nat) (p : List Char), j < k →
          (mkdirAttemptList path).get? j = some p → mkdirBenign (rc p) = true) →
        mkdirBenign (rc q) = false →
        Adafruit_LittleFS.mkdir rc path =
          ⟨false, (mkdirAttemptList path).take (k + 1), some (q, rc q)⟩) := by
  intro path rc
  refine ⟨by decide, by decide, ?_, ?_⟩
  · intro h
    unfold Adafruit_LittleFS.mkdir
    exact runMkdirAttempts_all_benign rc _ h
  · intro k q hk hbefore hq
    unfold Adafruit_LittleFS.mkdir
    exact runMkdirAttempts_first_bad rc _ k q hk hbefore hq

/-- Sample `lfs_mkdir` environment: `/a` already exists, every other
attempt fails with an I/O error. -/
def rcW : List Char → Int :=
  fun q => if q = "/a".toList then LFS_ERR_EXIST else -5

/-- Closed witness for `mkdir_error_handling`: on `/a/b`, the benign
EXIST for `/a` is absorbed, the I/O error on the leaf aborts. -/
theorem mkdir_error_handling_witness :
    Adafruit_LittleFS.mkdir rcW "/a/b".toList =
      ⟨false, (mkdirAttemptList "/a/b".toList).take (1 + 1),
        some ("/a/b".toList, rcW "/a/b".toList)⟩ :=
  (mkdir_error_handling "/a/b".toList rcW).2.2.2 1 "/a/b".toList (by decide)
    (fun j p hj hjp => by
      have hj0 : j = 0 := Nat.lt_one_iff.mp hj
      subst hj0
      have h0 : (mkdirAttemptList "/a/b".toList).get? 0 = some ("/a".toList) := by
        decide
      rw [h0] at hjp
      cases hjp
      decide)
    (by decide)

/-! ## Flash erase lemmas -/

/-- The write8 trace of the fill loop: one write of 0xFF per listed
address, in order. -/
lemma writeFillFF_trace (L : List Nat) : ∀ f : Flash,
    (writeFillFF f L).2 = L.map (fun a => (a % U32, 0xFF)) := by
  induction L with
  | nil => intro f; rfl
  | cons a rest ih => intro f; simp [writeFillFF, ih]

/-- The contents after the fill loop: 0xFF at every written address,
unchanged elsewhere. -/
lemma writeFillFF_apply (L : List Nat) : ∀ (f : Flash) (x : Nat),
    (writeFillFF f L).1 x =
      if x ∈ L.map (fun a => a % U32) then 0xFF else f x := by
  induction L with
  | nil => intro f x; simp [writeFillFF]
  | cons a rest ih =>
      intro f x
      simp only [writeFillFF]
      rw [ih]
      by_cases hx : x ∈ rest.map (fun a => a % U32)
      · simp [hx]
      · by_cases hax : x = a % U32
        · simp [hx, hax, flash_nrf5x_write8]
        · simp [hx, hax, flash_nrf5x_write8]

/-- Byte of the erased block image: 0xFF inside the written range,
untouched outside. -/
lemma erase_result_apply (base : Nat) (f : Flash) (block : Nat) (x : Nat) :
    (_internal_flash_erase base f block).1 x =
      if x ∈ (List.range LFS_BLOCK_SIZE).map
          (fun j => (lba2addr base block + j) % U32)
      then 0xFF else f x := by
  unfold _internal_flash_erase
  rw [writeFillFF_apply]
  simp [List.map_map, Function.comp]

/-- C8: `erase(block)` computes the block's base address and issues one
byte write of the erase-fill value 0xFF per byte offset
`0 .. LFS_BLOCK_SIZE-1`, in order; reading the whole block immediately
afterwards returns 0xFF for every byte; the callback reports success
(0). -/
theorem erase_fills_block (base : Nat) (f : Flash) (block : Nat) :
    (_internal_flash_erase base f block).2.1 =
      (List.range LFS_BLOCK_SIZE).map
        (fun i => ((lba2addr base block + i) % U32, 0xFF)) ∧
    flash_nrf5x_read (_internal_flash_erase base f block).1
        (lba2addr base block) LFS_BLOCK_SIZE =
      List.replicate LFS_BLOCK_SIZE 0xFF ∧
    (_internal_flash_erase base f block).2.2 = 0 := by
  refine ⟨?_, ?_, rfl⟩
  · show (writeFillFF f ((List.range LFS_BLOCK_SIZE).map
        (fun i => lba2addr base block + i))).2 = _
    rw [writeFillFF_trace]
    simp [List.map_map, Function.comp]
  · unfold flash_nrf5x_read
    have h : ∀ i ∈ List.range LFS_BLOCK_SIZE,
        (_internal_flash_erase base f block).1 ((lba2addr base block + i) % U32) =
          0xFF := by
      intro i hi
      rw [erase_result_apply]
      have hm : (lba2addr base block + i) % U32 ∈
          (List.range LFS_BLOCK_SIZE).map
            (fun j => (lba2addr base block + j) % U32) :=
        List.mem_map.mpr ⟨i, hi, rfl⟩
      rw [if_pos hm]
    rw [List.map_congr_left h, List.map_const', List.length_range]

/-! ## The remove family -/

/-- Sample filesystem with a populated directory `/d`. -/
def fsSample : FSEntries := ["/d".toList, "/d/x".toList, "/e".toList]

/-- C9: `remove`, `rmdir` and `rmdir_r` all delegate to the one remove
primitive with the same path argument and are behaviourally equal; the
(modified) primitive deletes an existing path together with everything
inside it and never produces the "not empty" error. -/
theorem remove_family_equiv :
    (∀ (prim : FSEntries → List Char → Int × FSEntries) (fs : FSEntries)
        (path : List Char),
      Adafruit_LittleFS.remove prim fs path = Adafruit_LittleFS.rmdir prim fs path ∧
      Adafruit_LittleFS.rmdir prim fs path = Adafruit_LittleFS.rmdir_r prim fs path ∧
      (Adafruit_LittleFS.remove prim fs path).2.2 = [path]) ∧
    (∀ (fs : FSEntries) (path : List Char),
      (lfs_remove fs path).1 ≠ LFS_ERR_NOTEMPTY) ∧
    (∀ (fs : FSEntries) (path : List Char), path ∈ fs →
      (lfs_remove fs path).1 = LFS_ERR_OK ∧
      ∀ q : List Char, q = path ∨ insideDir path q = true →
        q ∉ (lfs_remove fs path).2) := by
  refine ⟨?_, ?_, ?_⟩
  · intro prim fs path
    refine ⟨rfl, rfl, ?_⟩
    unfold Adafruit_LittleFS.remove
    by_cases h : lfsFailed (prim fs path).1 <;> simp [h]
  · intro fs path
    unfold lfs_remove
    by_cases h : path ∈ fs <;>
      simp [h, LFS_ERR_OK, LFS_ERR_NOENT, LFS_ERR_NOTEMPTY]
  · intro fs path hmem
    constructor
    · simp [lfs_remove, hmem]
    · intro q hq hqmem
      simp only [lfs_remove, if_pos hmem] at hqmem
      have hp := (List.mem_filter.mp hqmem).2
      rcases hq with h1 | h2
      · subst h1
        simp at hp
      · rw [h2] at hp
        simp at hp

/-- Closed witness for `remove_family_equiv`: removing the populated
directory `/d` succeeds and deletes the entry inside it. -/
theorem remove_family_equiv_witness :
    (lfs_remove fsSample "/d".toList).1 = LFS_ERR_OK ∧
    "/d/x".toList ∉ (lfs_remove fsSample "/d".toList).2 :=
  ⟨(remove_family_equiv.2.2 fsSample "/d".toList (by decide)).1,
   (remove_family_equiv.2.2 fsSample "/d".toList (by decide)).2 "/d/x".toList
     (Or.inr (by decide))⟩
